import Mathlib

/-!
Shallow embedding of the Kantech DC-line sizing calculator
(src/KantechCalc.py) and proofs about its sizing and optimization engine:
per-line requirement derivation, least-cost controller selection,
expansion-module selection, fleet aggregation and license-tier resolution.
-/

namespace KantechCalc

/-- The three demand quantities derived for one DC line
(the dict returned by `DCDevice.calculate_totals`). -/
structure Totals where
  readers : ℕ
  inputs : ℕ
  outputs : ℕ
deriving Repr, DecidableEq

/-- Device tally of a single DC line (`DCDevice` dataclass, lines 10-24). -/
structure DCDevice where
  dc_number : ℕ := 0
  smart_card : ℕ := 0
  fingerprint : ℕ := 0
  door_sensor : ℕ := 0
  magnetic_lock : ℕ := 0
  electric_lock : ℕ := 0
  rex_button : ℕ := 0
  push_button : ℕ := 0
  break_glass : ℕ := 0
  buzzer : ℕ := 0
  double_door_lock : ℕ := 0
  ddl_sensors : ℕ := 0
deriving Repr, DecidableEq

/-- `DCDevice.calculate_totals` (lines 26-42): readers, inputs, outputs of a line. -/
def DCDevice.calculate_totals (d : DCDevice) : Totals :=
  { readers := d.smart_card + d.fingerprint
    inputs := d.door_sensor + d.rex_button + d.push_button +
      d.break_glass + d.buzzer + d.magnetic_lock +
      d.ddl_sensors + d.double_door_lock
    outputs := d.magnetic_lock + d.electric_lock +
      d.ddl_sensors + d.double_door_lock }

/-!
Both selectors in the source scan a candidate list keeping the first
strictly-cheaper feasible candidate seen so far (`if cost < best_cost`,
starting from infinity).  `runBest` is that scan; `none` plays the role of
the initial infinite cost.
-/

/-- Best-so-far scan: each list entry is a candidate paired with its
feasibility flag; a feasible candidate replaces the current best exactly
when its cost is strictly smaller (or when there is no best yet). -/
def runBest {α : Type} (cost : α → ℕ) : List (α × Bool) → Option α → Option α
  | [], best => best
  | p :: rest, best =>
      runBest cost rest
        (if p.2 then
          match best with
          | none => some p.1
          | some b => if cost p.1 < cost b then some p.1 else some b
        else best)

theorem runBest_init_some {α : Type} (cost : α → ℕ) :
    ∀ (l : List (α × Bool)) (b : α),
      ∃ s, runBest cost l (some b) = some s ∧ cost s ≤ cost b := by
  intro l
  induction l with
  | nil => exact fun b => ⟨b, rfl, le_refl _⟩
  | cons p rest ih =>
      intro b
      by_cases hp : p.2
      · simp only [runBest, hp, if_true]
        by_cases hlt : cost p.1 < cost b
        · simp only [hlt, if_true]
          obtain ⟨s, hs, hc⟩ := ih p.1
          exact ⟨s, hs, hc.trans hlt.le⟩
        · simp only [hlt, if_false]
          exact ih b
      · simp only [runBest, hp, if_false]
        exact ih b

theorem runBest_some_of_memTrue {α : Type} (cost : α → ℕ) :
    ∀ (l : List (α × Bool)) (init : Option α) (x : α),
      (x, true) ∈ l → ∃ s, runBest cost l init = some s := by
  intro l
  induction l with
  | nil => intro init x hx; simp at hx
  | cons p rest ih =>
      intro init x hx
      rcases List.mem_cons.mp hx with h | h
      · have hp : p.2 = true := by rw [← h]
        cases init with
        | none =>
            simp only [runBest, hp, if_true]
            obtain ⟨s, hs, -⟩ := runBest_init_some cost rest p.1
            exact ⟨s, hs⟩
        | some b =>
            simp only [runBest, hp, if_true]
            by_cases hlt : cost p.1 < cost b
            · simp only [hlt, if_true]
              obtain ⟨s, hs, -⟩ := runBest_init_some cost rest p.1
              exact ⟨s, hs⟩
            · simp only [hlt, if_false]
              obtain ⟨s, hs, -⟩ := runBest_init_some cost rest b
              exact ⟨s, hs⟩
      · exact ih _ x h

theorem runBest_none_of_allFalse {α : Type} (cost : α → ℕ) :
    ∀ (l : List (α × Bool)), (∀ p ∈ l, p.2 = false) →
      runBest cost l none = none := by
  intro l
  induction l with
  | nil => intro _; rfl
  | cons p rest ih =>
      intro h
      have hp : p.2 = false := h p (List.mem_cons_self _ _)
      simp only [runBest, hp, if_neg Bool.false_ne_true, Bool.false_eq_true, if_false]
      exact ih fun q hq => h q (List.mem_cons_of_mem _ hq)

theorem runBest_mem {α : Type} (cost : α → ℕ) :
    ∀ (l : List (α × Bool)) (init : Option α) (s : α),
      runBest cost l init = some s → (s, true) ∈ l ∨ init = some s := by
  intro l
  induction l with
  | nil => intro init s h; exact Or.inr h
  | cons p rest ih =>
      intro init s h
      by_cases hp : p.2
      · cases init with
        | none =>
            simp only [runBest, hp, if_true] at h
            rcases ih _ s h with h' | h'
            · exact Or.inl (List.mem_cons_of_mem _ h')
            · left
              have : p = (s, true) := by
                obtain ⟨p1, p2⟩ := p
                simp only [Option.some.injEq] at h'
                simp only at hp
                simp [h', hp]
              rw [← this]
              exact List.mem_cons_self _ _
        | some b =>
            simp only [runBest, hp, if_true] at h
            by_cases hlt : cost p.1 < cost b
            · simp only [hlt, if_true] at h
              rcases ih _ s h with h' | h'
              · exact Or.inl (List.mem_cons_of_mem _ h')
              · left
                have : p = (s, true) := by
                  obtain ⟨p1, p2⟩ := p
                  simp only [Option.some.injEq] at h'
                  simp only at hp
                  simp [h', hp]
                rw [← this]
                exact List.mem_cons_self _ _
            · simp only [hlt, if_false] at h
              rcases ih _ s h with h' | h'
              · exact Or.inl (List.mem_cons_of_mem _ h')
              · exact Or.inr h'
      · simp only [runBest, if_neg hp] at h
        rcases ih _ s h with h' | h'
        · exact Or.inl (List.mem_cons_of_mem _ h')
        · exact Or.inr h'

theorem runBest_le {α : Type} (cost : α → ℕ) :
    ∀ (l : List (α × Bool)) (init : Option α) (s : α),
      runBest cost l init = some s →
      (∀ t, (t, true) ∈ l → cost s ≤ cost t) ∧
      (∀ b, init = some b → cost s ≤ cost b) := by
  intro l
  induction l with
  | nil =>
      intro init s h
      refine ⟨fun t ht => absurd ht (List.not_mem_nil _), fun b hb => ?_⟩
      rw [hb] at h
      simp only [runBest, Option.some.injEq] at h
      rw [h]
  | cons p rest ih =>
      intro init s h
      by_cases hp : p.2
      · cases init with
        | none =>
            simp only [runBest, hp, if_true] at h
            obtain ⟨hrest, hinit⟩ := ih _ s h
            refine ⟨fun t ht => ?_, fun b hb => by simp at hb⟩
            rcases List.mem_cons.mp ht with h' | h'
            · subst h'
              exact hinit t rfl
            · exact hrest t h'
        | some b =>
            simp only [runBest, hp, if_true] at h
            by_cases hlt : cost p.1 < cost b
            · simp only [hlt, if_true] at h
              obtain ⟨hrest, hinit⟩ := ih _ s h
              have hsp : cost s ≤ cost p.1 := hinit p.1 rfl
              refine ⟨fun t ht => ?_, fun b' hb' => ?_⟩
              · rcases List.mem_cons.mp ht with h' | h'
                · subst h'
                  exact hsp
                · exact hrest t h'
              · injection hb' with hbb
                rw [← hbb]
                exact hsp.trans hlt.le
            · simp only [hlt, if_false] at h
              obtain ⟨hrest, hinit⟩ := ih _ s h
              have hsb : cost s ≤ cost b := hinit b rfl
              refine ⟨fun t ht => ?_, fun b' hb' => ?_⟩
              · rcases List.mem_cons.mp ht with h' | h'
                · subst h'
                  exact hsb.trans (not_lt.mp hlt)
                · exact hrest t h'
              · injection hb' with hbb
                rw [← hbb]
                exact hsb
      · simp only [runBest, if_neg hp] at h
        obtain ⟨hrest, hinit⟩ := ih _ s h
        refine ⟨fun t ht => ?_, hinit⟩
        rcases List.mem_cons.mp ht with h' | h'
        · subst h'
          exact absurd rfl hp
        · exact hrest t h'

/-!
Controller Selector (`select_controllers_for_dc`, lines 234-282):
bounded triple-nested enumeration over counts of kt-400 / kt-2 / kt-1,
keeping the first strictly-cheaper feasible combination
(readers provided must meet or exceed the line's reader demand).
-/

/-- The `best_solution` dict built inside the enumeration (lines 257-264). -/
structure CtrlSol where
  kt400 : ℕ
  kt2 : ℕ
  kt1 : ℕ
  readers_provided : ℕ
  cost : ℕ
  extra_readers : ℕ
deriving Repr, DecidableEq

/-- The merged dict returned by `select_controllers_for_dc` (lines 276-280):
the best solution plus the inputs/outputs that selection incidentally provides. -/
structure CtrlAlloc where
  kt400 : ℕ
  kt2 : ℕ
  kt1 : ℕ
  readers_provided : ℕ
  cost : ℕ
  extra_readers : ℕ
  inputs_provided : ℕ
  outputs_provided : ℕ
deriving Repr, DecidableEq

/-- One candidate of the enumeration (lines 250-263). -/
def mkCtrlSol (kt400 kt2 kt1 total_readers : ℕ) : CtrlSol :=
  { kt400 := kt400
    kt2 := kt2
    kt1 := kt1
    readers_provided := kt400 * 4 + kt2 * 2 + kt1 * 1
    cost := kt400 * 1400 + kt2 * 750 + kt1 * 450
    extra_readers := (kt400 * 4 + kt2 * 2 + kt1 * 1) - total_readers }

/-- The candidate list scanned by the triple-nested loop (lines 243-249):
each variant count ranges over `0 .. max(1, bound) (inclusive)`, and the
feasibility flag is `readers_provided >= total_readers`. -/
def ctrlCandidates (total_readers : ℕ) : List (CtrlSol × Bool) :=
  (List.range (max 1 (total_readers / 4 + 2) + 1)).flatMap fun kt400 =>
    (List.range (max 1 (total_readers / 2 + 2) + 1)).flatMap fun kt2 =>
      (List.range (max 1 (total_readers + 2) + 1)).map fun kt1 =>
        (mkCtrlSol kt400 kt2 kt1 total_readers,
         decide (total_readers ≤ kt400 * 4 + kt2 * 2 + kt1 * 1))

/-- `select_controllers_for_dc` (lines 234-282): selection uses ONLY the
`readers` field of the line's requirements; on success the inputs/outputs
provided by the chosen units are attached (lines 266-280). -/
def select_controllers_for_dc (dc_requirements : Totals) : Option CtrlAlloc :=
  match runBest CtrlSol.cost (ctrlCandidates dc_requirements.readers) none with
  | some s =>
      some { kt400 := s.kt400
             kt2 := s.kt2
             kt1 := s.kt1
             readers_provided := s.readers_provided
             cost := s.cost
             extra_readers := s.extra_readers
             inputs_provided := s.kt400 * 16 + s.kt2 * 8 + s.kt1 * 4
             outputs_provided := s.kt400 * 4 + s.kt2 * 2 + s.kt1 * 2 }
  | none => none

theorem mem_ctrlCandidates {r a b c : ℕ}
    (ha : a ≤ max 1 (r / 4 + 2)) (hb : b ≤ max 1 (r / 2 + 2))
    (hc : c ≤ max 1 (r + 2)) :
    (mkCtrlSol a b c r, decide (r ≤ a * 4 + b * 2 + c * 1)) ∈ ctrlCandidates r := by
  unfold ctrlCandidates
  refine List.mem_flatMap.mpr ⟨a, List.mem_range.mpr (by omega), ?_⟩
  refine List.mem_flatMap.mpr ⟨b, List.mem_range.mpr (by omega), ?_⟩
  exact List.mem_map.mpr ⟨c, List.mem_range.mpr (by omega), rfl⟩

theorem ctrlCandidates_shape {r : ℕ} {p : CtrlSol × Bool}
    (hp : p ∈ ctrlCandidates r) :
    ∃ a b c, p = (mkCtrlSol a b c r, decide (r ≤ a * 4 + b * 2 + c * 1)) := by
  unfold ctrlCandidates at hp
  obtain ⟨a, -, hp⟩ := List.mem_flatMap.mp hp
  obtain ⟨b, -, hp⟩ := List.mem_flatMap.mp hp
  obtain ⟨c, -, hp⟩ := List.mem_map.mp hp
  exact ⟨a, b, c, hp.symm⟩

/-- The Controller Selector always succeeds, and the returned allocation is
feasible, internally consistent, and cost-minimal among ALL non-negative
integer combinations (not just those within the search bounds). -/
theorem select_spec (req : Totals) :
    ∃ alloc, select_controllers_for_dc req = some alloc ∧
      alloc.readers_provided = alloc.kt400 * 4 + alloc.kt2 * 2 + alloc.kt1 * 1 ∧
      req.readers ≤ alloc.readers_provided ∧
      alloc.cost = alloc.kt400 * 1400 + alloc.kt2 * 750 + alloc.kt1 * 450 ∧
      alloc.extra_readers = alloc.readers_provided - req.readers ∧
      alloc.inputs_provided = alloc.kt400 * 16 + alloc.kt2 * 8 + alloc.kt1 * 4 ∧
      alloc.outputs_provided = alloc.kt400 * 4 + alloc.kt2 * 2 + alloc.kt1 * 2 ∧
      ∀ a b c : ℕ, req.readers ≤ a * 4 + b * 2 + c →
        alloc.cost ≤ a * 1400 + b * 750 + c * 450 := by
  set r := req.readers with hr
  have hfeas : (mkCtrlSol 0 0 r r, decide (r ≤ 0 * 4 + 0 * 2 + r * 1)) ∈
      ctrlCandidates r := mem_ctrlCandidates (by omega) (by omega) (by omega)
  have hflag : decide (r ≤ 0 * 4 + 0 * 2 + r * 1) = true := by
    simp only [decide_eq_true_eq]; omega
  rw [hflag] at hfeas
  obtain ⟨s, hs⟩ := runBest_some_of_memTrue CtrlSol.cost (ctrlCandidates r) none _ hfeas
  have hmem := runBest_mem CtrlSol.cost (ctrlCandidates r) none s hs
  have hle := (runBest_le CtrlSol.cost (ctrlCandidates r) none s hs).1
  rcases hmem with hmem | hmem
  swap
  · simp at hmem
  obtain ⟨a, b, c, habc⟩ := ctrlCandidates_shape hmem
  have hsval : s = mkCtrlSol a b c r := congrArg Prod.fst habc
  have hsfeas : r ≤ a * 4 + b * 2 + c * 1 := by
    have : (true : Bool) = decide (r ≤ a * 4 + b * 2 + c * 1) :=
      congrArg Prod.snd habc
    exact of_decide_eq_true this.symm
  refine ⟨⟨s.kt400, s.kt2, s.kt1, s.readers_provided, s.cost, s.extra_readers,
      s.kt400 * 16 + s.kt2 * 8 + s.kt1 * 4, s.kt400 * 4 + s.kt2 * 2 + s.kt1 * 2⟩,
    ?_, ?_, ?_, ?_, ?_, ?_, ?_, ?_⟩
  · unfold select_controllers_for_dc
    rw [← hr, hs]
  · simp [hsval, mkCtrlSol]
  · simp only [hsval, mkCtrlSol]
    omega
  · simp [hsval, mkCtrlSol]
  · simp [hsval, mkCtrlSol]
  · simp [hsval, mkCtrlSol]
  · simp [hsval, mkCtrlSol]
  · intro a' b' c' hfe
    -- clamp the arbitrary feasible triple into the search bounds
    set a2 := min a' ((r + 3) / 4) with ha2
    set b2 := min b' ((r + 1) / 2) with hb2
    set c2 := min c' r with hc2
    have hfe2 : r ≤ a2 * 4 + b2 * 2 + c2 * 1 := by omega
    have hmem2 : (mkCtrlSol a2 b2 c2 r, decide (r ≤ a2 * 4 + b2 * 2 + c2 * 1)) ∈
        ctrlCandidates r :=
      mem_ctrlCandidates (by omega) (by omega) (by omega)
    rw [decide_eq_true hfe2] at hmem2
    have := hle _ hmem2
    simp only [hsval, mkCtrlSol] at this ⊢
    omega

/-!
Expansion Selector (`calculate_expansion_for_dc`, lines 284-355):
shortage computation, single-module scan, two-module scan (both folded into
one best-so-far search with a shared best solution), and the specialized
in16/r8 fallback when no combination of at most two modules suffices.
-/

/-- One catalog entry of `self.expansion_modules` (lines 56-64). -/
structure ExpModule where
  name : String
  inputs : ℕ
  outputs : ℕ
  cost : ℕ
deriving Repr, DecidableEq

/-- The expansion-module catalog (lines 56-64). -/
def expansion_modules : List ExpModule :=
  [ ⟨"inout16 (16/0)", 16, 0, 447⟩,
    ⟨"inout16 (12/4)", 12, 4, 447⟩,
    ⟨"inout16 (8/8)", 8, 8, 447⟩,
    ⟨"inout16 (4/12)", 4, 12, 447⟩,
    ⟨"inout16 (0/16)", 0, 16, 447⟩,
    ⟨"in16", 16, 0, 470⟩,
    ⟨"r8", 0, 8, 470⟩ ]

/-- An expansion solution: chosen module names (repeats allowed) and cost. -/
structure ExpSol where
  modules : List String
  cost : ℕ
deriving Repr, DecidableEq

/-- Single-module candidates (lines 304-311): a module qualifies when its
input and output capacities each meet or exceed the respective shortage. -/
def singleCandidates (input_shortage output_shortage : ℕ) : List (ExpSol × Bool) :=
  expansion_modules.map fun m =>
    (⟨[m.name], m.cost⟩,
     decide (input_shortage ≤ m.inputs ∧ output_shortage ≤ m.outputs))

/-- Ordered two-module candidates (lines 313-326): summed capacities must
meet or exceed both shortages. -/
def pairCandidates (input_shortage output_shortage : ℕ) : List (ExpSol × Bool) :=
  expansion_modules.flatMap fun m1 =>
    expansion_modules.map fun m2 =>
      (⟨[m1.name, m2.name], m1.cost + m2.cost⟩,
       decide (input_shortage ≤ m1.inputs + m2.inputs ∧
               output_shortage ≤ m1.outputs + m2.outputs))

/-- The specialized-module fallback (lines 328-350): in16 units (16 inputs,
$470 each) for the input shortage and r8 units (8 outputs, $470 each) for
the output shortage, sized independently by ceiling division. -/
def fallbackSol (input_shortage output_shortage : ℕ) : ExpSol :=
  { modules :=
      (if 0 < input_shortage then [s!"in16 (x{(input_shortage + 15) / 16})"] else []) ++
      (if 0 < output_shortage then [s!"r8 (x{(output_shortage + 7) / 8})"] else [])
    cost :=
      (if 0 < input_shortage then 470 * ((input_shortage + 15) / 16) else 0) +
      (if 0 < output_shortage then 470 * ((output_shortage + 7) / 8) else 0) }

/-- Lines 296-350 of `calculate_expansion_for_dc`, operating on the two
shortages: no modules when both shortages are zero; otherwise the
best-so-far scan over single then two-module candidates, falling back to
the specialized modules when that scan finds nothing. -/
def expansion_for_shortage (input_shortage output_shortage : ℕ) : ExpSol :=
  if input_shortage = 0 ∧ output_shortage = 0 then ⟨[], 0⟩
  else
    match runBest ExpSol.cost
        (singleCandidates input_shortage output_shortage ++
         pairCandidates input_shortage output_shortage) none with
    | some s => s
    | none => fallbackSol input_shortage output_shortage

/-- `calculate_expansion_for_dc` (lines 284-355): shortages are
`max(0, demand - provided)`, here truncated natural subtraction. -/
def calculate_expansion_for_dc (dc_inputs dc_outputs controller_inputs
    controller_outputs : ℕ) : ExpSol :=
  expansion_for_shortage (dc_inputs - controller_inputs)
    (dc_outputs - controller_outputs)

/-- Some single catalog module covers both shortages. -/
def singleOK (input_shortage output_shortage : ℕ) : Prop :=
  ∃ m ∈ expansion_modules,
    input_shortage ≤ m.inputs ∧ output_shortage ≤ m.outputs

instance (i o : ℕ) : Decidable (singleOK i o) :=
  inferInstanceAs (Decidable (∃ m ∈ expansion_modules, _ ∧ _))

/-- Some ordered pair of catalog modules (repeats allowed) covers both
shortages with its summed capacities. -/
def pairOK (input_shortage output_shortage : ℕ) : Prop :=
  ∃ m1 ∈ expansion_modules, ∃ m2 ∈ expansion_modules,
    input_shortage ≤ m1.inputs + m2.inputs ∧
    output_shortage ≤ m1.outputs + m2.outputs

instance (i o : ℕ) : Decidable (pairOK i o) :=
  inferInstanceAs (Decidable (∃ m1 ∈ expansion_modules, ∃ m2 ∈ expansion_modules, _ ∧ _))

theorem singleOK_pairOK {i o : ℕ} (h : singleOK i o) : pairOK i o := by
  obtain ⟨m, hm, h1, h2⟩ := h
  exact ⟨m, hm, m, hm, by omega, by omega⟩

theorem singleOK_mono {i o i' o' : ℕ} (hi : i ≤ i') (ho : o ≤ o')
    (h : singleOK i' o') : singleOK i o := by
  obtain ⟨m, hm, h1, h2⟩ := h
  exact ⟨m, hm, by omega, by omega⟩

theorem pairOK_mono {i o i' o' : ℕ} (hi : i ≤ i') (ho : o ≤ o')
    (h : pairOK i' o') : pairOK i o := by
  obtain ⟨m1, hm1, m2, hm2, h1, h2⟩ := h
  exact ⟨m1, hm1, m2, hm2, by omega, by omega⟩

theorem mem_singleCandidates {i o : ℕ} {p : ExpSol × Bool}
    (hp : p ∈ singleCandidates i o) :
    ∃ m ∈ expansion_modules,
      p = (⟨[m.name], m.cost⟩, decide (i ≤ m.inputs ∧ o ≤ m.outputs)) := by
  obtain ⟨m, hm, hp⟩ := List.mem_map.mp hp
  exact ⟨m, hm, hp.symm⟩

theorem mem_pairCandidates {i o : ℕ} {p : ExpSol × Bool}
    (hp : p ∈ pairCandidates i o) :
    ∃ m1 ∈ expansion_modules, ∃ m2 ∈ expansion_modules,
      p = (⟨[m1.name, m2.name], m1.cost + m2.cost⟩,
           decide (i ≤ m1.inputs + m2.inputs ∧ o ≤ m1.outputs + m2.outputs)) := by
  obtain ⟨m1, hm1, hp⟩ := List.mem_flatMap.mp hp
  obtain ⟨m2, hm2, hp⟩ := List.mem_map.mp hp
  exact ⟨m1, hm1, m2, hm2, hp.symm⟩

theorem singleCandidates_mem {i o : ℕ} {m : ExpModule}
    (hm : m ∈ expansion_modules) :
    (⟨[m.name], m.cost⟩, decide (i ≤ m.inputs ∧ o ≤ m.outputs)) ∈
      singleCandidates i o :=
  List.mem_map.mpr ⟨m, hm, rfl⟩

theorem pairCandidates_mem {i o : ℕ} {m1 m2 : ExpModule}
    (hm1 : m1 ∈ expansion_modules) (hm2 : m2 ∈ expansion_modules) :
    (⟨[m1.name, m2.name], m1.cost + m2.cost⟩,
     decide (i ≤ m1.inputs + m2.inputs ∧ o ≤ m1.outputs + m2.outputs)) ∈
      pairCandidates i o :=
  List.mem_flatMap.mpr ⟨m1, hm1, List.mem_map.mpr ⟨m2, hm2, rfl⟩⟩

/-- Every catalog module costs at least 447, and any module is dominated by
a 447-cost module with capacities at least as large in both dimensions. -/
theorem module_cost_ge : ∀ m ∈ expansion_modules, 447 ≤ m.cost := by decide

theorem module_dominated : ∀ m ∈ expansion_modules,
    ∃ m' ∈ expansion_modules, m'.cost = 447 ∧
      m.inputs ≤ m'.inputs ∧ m.outputs ≤ m'.outputs := by decide

theorem cand_cost_ge {i o : ℕ} {p : ExpSol × Bool}
    (hp : p ∈ singleCandidates i o ++ pairCandidates i o) : 447 ≤ p.1.cost := by
  rcases List.mem_append.mp hp with h | h
  · obtain ⟨m, hm, hpe⟩ := mem_singleCandidates h
    rw [hpe]
    exact module_cost_ge m hm
  · obtain ⟨m1, hm1, m2, hm2, hpe⟩ := mem_pairCandidates h
    rw [hpe]
    have := module_cost_ge m1 hm1
    simp only
    omega

/-- Tier 2 of the Expansion Selector: when some single module covers both
shortages, the scan returns one covering module of minimal cost, and that
minimal cost is 447. -/
theorem exp_single_spec {i o : ℕ} (hz : ¬(i = 0 ∧ o = 0)) (hs : singleOK i o) :
    ∃ m ∈ expansion_modules, (i ≤ m.inputs ∧ o ≤ m.outputs) ∧
      expansion_for_shortage i o = ⟨[m.name], m.cost⟩ ∧ m.cost = 447 ∧
      ∀ m' ∈ expansion_modules, i ≤ m'.inputs ∧ o ≤ m'.outputs →
        m.cost ≤ m'.cost := by
  obtain ⟨m0, hm0, hc0⟩ := hs
  obtain ⟨md, hmd, hmd447, hmdi, hmdo⟩ := module_dominated m0 hm0
  have hcd : i ≤ md.inputs ∧ o ≤ md.outputs := ⟨by omega, by omega⟩
  have hmemd : ((⟨[md.name], md.cost⟩ : ExpSol), true) ∈
      singleCandidates i o ++ pairCandidates i o := by
    have := singleCandidates_mem (i := i) (o := o) hmd
    rw [decide_eq_true hcd] at this
    exact List.mem_append_left _ this
  obtain ⟨s, hrun⟩ := runBest_some_of_memTrue ExpSol.cost _ none _ hmemd
  have hres : expansion_for_shortage i o = s := by
    unfold expansion_for_shortage
    rw [if_neg hz, hrun]
  have hle := (runBest_le ExpSol.cost _ none s hrun).1
  have hsd : s.cost ≤ md.cost := hle _ hmemd
  have hmem := runBest_mem ExpSol.cost _ none s hrun
  rcases hmem with hmem | hmem
  swap
  · simp at hmem
  rcases List.mem_append.mp hmem with hmem | hmem
  · obtain ⟨m, hm, hpe⟩ := mem_singleCandidates hmem
    have hsm : s = ⟨[m.name], m.cost⟩ := congrArg Prod.fst hpe
    have hcov : i ≤ m.inputs ∧ o ≤ m.outputs := by
      have : (true : Bool) = decide (i ≤ m.inputs ∧ o ≤ m.outputs) :=
        congrArg Prod.snd hpe
      exact of_decide_eq_true this.symm
    refine ⟨m, hm, hcov, by rw [hres, hsm], ?_, ?_⟩
    · have h447 := module_cost_ge m hm
      have : s.cost = m.cost := by rw [hsm]
      omega
    · intro m' hm' hc'
      have hmem' : ((⟨[m'.name], m'.cost⟩ : ExpSol), true) ∈
          singleCandidates i o ++ pairCandidates i o := by
        have := singleCandidates_mem (i := i) (o := o) hm'
        rw [decide_eq_true hc'] at this
        exact List.mem_append_left _ this
      have := hle _ hmem'
      have : s.cost ≤ m'.cost := this
      rw [hsm] at this
      exact this
  · exfalso
    obtain ⟨m1, hm1, m2, hm2, hpe⟩ := mem_pairCandidates hmem
    have hsm : s = ⟨[m1.name, m2.name], m1.cost + m2.cost⟩ := congrArg Prod.fst hpe
    have h1 := module_cost_ge m1 hm1
    have h2 := module_cost_ge m2 hm2
    have : s.cost = m1.cost + m2.cost := by rw [hsm]
    omega

/-- Tier 3 of the Expansion Selector: when no single module covers both
shortages but some ordered pair does, the scan returns one covering pair of
minimal cost, and that minimal cost is 894. -/
theorem exp_pair_spec {i o : ℕ} (hns : ¬ singleOK i o) (hp : pairOK i o) :
    ∃ m1 ∈ expansion_modules, ∃ m2 ∈ expansion_modules,
      (i ≤ m1.inputs + m2.inputs ∧ o ≤ m1.outputs + m2.outputs) ∧
      expansion_for_shortage i o = ⟨[m1.name, m2.name], m1.cost + m2.cost⟩ ∧
      m1.cost + m2.cost = 894 ∧
      ∀ n1 ∈ expansion_modules, ∀ n2 ∈ expansion_modules,
        i ≤ n1.inputs + n2.inputs ∧ o ≤ n1.outputs + n2.outputs →
        m1.cost + m2.cost ≤ n1.cost + n2.cost := by
  have hz : ¬(i = 0 ∧ o = 0) := by
    rintro ⟨rfl, rfl⟩
    exact hns (by decide)
  obtain ⟨n1, hn1, n2, hn2, hc1, hc2⟩ := hp
  obtain ⟨d1, hd1, hd1c, hd1i, hd1o⟩ := module_dominated n1 hn1
  obtain ⟨d2, hd2, hd2c, hd2i, hd2o⟩ := module_dominated n2 hn2
  have hcd : i ≤ d1.inputs + d2.inputs ∧ o ≤ d1.outputs + d2.outputs :=
    ⟨by omega, by omega⟩
  have hmemd : ((⟨[d1.name, d2.name], d1.cost + d2.cost⟩ : ExpSol), true) ∈
      singleCandidates i o ++ pairCandidates i o := by
    have := pairCandidates_mem (i := i) (o := o) hd1 hd2
    rw [decide_eq_true hcd] at this
    exact List.mem_append_right _ this
  obtain ⟨s, hrun⟩ := runBest_some_of_memTrue ExpSol.cost _ none _ hmemd
  have hres : expansion_for_shortage i o = s := by
    unfold expansion_for_shortage
    rw [if_neg hz, hrun]
  have hle := (runBest_le ExpSol.cost _ none s hrun).1
  have hsd : s.cost ≤ d1.cost + d2.cost := hle _ hmemd
  have hmem := runBest_mem ExpSol.cost _ none s hrun
  rcases hmem with hmem | hmem
  swap
  · simp at hmem
  rcases List.mem_append.mp hmem with hmem | hmem
  · exfalso
    obtain ⟨m, hm, hpe⟩ := mem_singleCandidates hmem
    have hcov : i ≤ m.inputs ∧ o ≤ m.outputs := by
      have : (true : Bool) = decide (i ≤ m.inputs ∧ o ≤ m.outputs) :=
        congrArg Prod.snd hpe
      exact of_decide_eq_true this.symm
    exact hns ⟨m, hm, hcov⟩
  · obtain ⟨m1, hm1, m2, hm2, hpe⟩ := mem_pairCandidates hmem
    have hsm : s = ⟨[m1.name, m2.name], m1.cost + m2.cost⟩ := congrArg Prod.fst hpe
    have hcov : i ≤ m1.inputs + m2.inputs ∧ o ≤ m1.outputs + m2.outputs := by
      have : (true : Bool) = decide (i ≤ m1.inputs + m2.inputs ∧
          o ≤ m1.outputs + m2.outputs) := congrArg Prod.snd hpe
      exact of_decide_eq_true this.symm
    refine ⟨m1, hm1, m2, hm2, hcov, by rw [hres, hsm], ?_, ?_⟩
    · have h1 := module_cost_ge m1 hm1
      have h2 := module_cost_ge m2 hm2
      have hsc : s.cost = m1.cost + m2.cost := by rw [hsm]
      omega
    · intro k1 hk1 k2 hk2 hck
      have hmemk : ((⟨[k1.name, k2.name], k1.cost + k2.cost⟩ : ExpSol), true) ∈
          singleCandidates i o ++ pairCandidates i o := by
        have := pairCandidates_mem (i := i) (o := o) hk1 hk2
        rw [decide_eq_true hck] at this
        exact List.mem_append_right _ this
      have := hle _ hmemk
      have hsk : s.cost ≤ k1.cost + k2.cost := this
      rw [hsm] at hsk
      exact hsk

/-- Tier 4 of the Expansion Selector: when no pair (hence no single module)
covers both shortages, the scan finds nothing and the specialized in16/r8
fallback is returned. -/
theorem exp_fallback {i o : ℕ} (hnp : ¬ pairOK i o) :
    expansion_for_shortage i o = fallbackSol i o := by
  have hz : ¬(i = 0 ∧ o = 0) := by
    rintro ⟨rfl, rfl⟩
    exact hnp (by decide)
  have hns : ¬ singleOK i o := fun h => hnp (singleOK_pairOK h)
  have hall : ∀ p ∈ singleCandidates i o ++ pairCandidates i o, p.2 = false := by
    intro p hp
    rcases List.mem_append.mp hp with h | h
    · obtain ⟨m, hm, hpe⟩ := mem_singleCandidates h
      rw [hpe]
      exact decide_eq_false fun hc => hns ⟨m, hm, hc⟩
    · obtain ⟨m1, hm1, m2, hm2, hpe⟩ := mem_pairCandidates h
      rw [hpe]
      exact decide_eq_false fun hc => hnp ⟨m1, hm1, m2, hm2, hc.1, hc.2⟩
  unfold expansion_for_shortage
  rw [if_neg hz, runBest_none_of_allFalse ExpSol.cost _ hall]

theorem exp_zero : expansion_for_shortage 0 0 = ⟨[], 0⟩ := by
  simp [expansion_for_shortage]

/-- When no pair covers, the fallback costs at least 894. -/
theorem fallback_lb {i o : ℕ} (hnp : ¬ pairOK i o) :
    894 ≤ (fallbackSol i o).cost := by
  have hA : ¬(i ≤ 32 ∧ o ≤ 0) := by
    intro ⟨x, y⟩
    exact hnp ⟨⟨"inout16 (16/0)", 16, 0, 447⟩, by decide,
      ⟨"inout16 (16/0)", 16, 0, 447⟩, by decide, by simpa using x, by simpa using y⟩
  have hB : ¬(i ≤ 16 ∧ o ≤ 16) := by
    intro ⟨x, y⟩
    exact hnp ⟨⟨"inout16 (16/0)", 16, 0, 447⟩, by decide,
      ⟨"inout16 (0/16)", 0, 16, 447⟩, by decide, by simpa using x, by simpa using y⟩
  have hC : ¬(i ≤ 0 ∧ o ≤ 32) := by
    intro ⟨x, y⟩
    exact hnp ⟨⟨"inout16 (0/16)", 0, 16, 447⟩, by decide,
      ⟨"inout16 (0/16)", 0, 16, 447⟩, by decide, by simpa using x, by simpa using y⟩
  simp only [fallbackSol]
  split_ifs <;> omega

/-- Any non-trivial shortage costs at least 447 in expansion modules. -/
theorem exp_cost_lb447 {i o : ℕ} (hz : ¬(i = 0 ∧ o = 0)) :
    447 ≤ (expansion_for_shortage i o).cost := by
  by_cases hs : singleOK i o
  · obtain ⟨m, -, -, hr, h447, -⟩ := exp_single_spec hz hs
    rw [hr]
    simp [h447]
  · by_cases hp : pairOK i o
    · obtain ⟨m1, -, m2, -, -, hr, h894, -⟩ := exp_pair_spec hs hp
      rw [hr]
      simp only
      omega
    · rw [exp_fallback hp]
      have := fallback_lb hp
      omega

/-- When no single module covers, the expansion cost is at least 894. -/
theorem exp_cost_lb894 {i o : ℕ} (hns : ¬ singleOK i o) :
    894 ≤ (expansion_for_shortage i o).cost := by
  by_cases hp : pairOK i o
  · obtain ⟨m1, -, m2, -, -, hr, h894, -⟩ := exp_pair_spec hns hp
    rw [hr]
    simp only
    omega
  · rw [exp_fallback hp]
    exact fallback_lb hp

theorem fallback_mono {i o i' o' : ℕ} (hi : i ≤ i') (ho : o ≤ o') :
    (fallbackSol i o).cost ≤ (fallbackSol i' o').cost := by
  simp only [fallbackSol]
  split_ifs <;> omega

/-- The Expansion Selector's cost is monotone in each shortage. -/
theorem exp_cost_mono {i o i' o' : ℕ} (hi : i ≤ i') (ho : o ≤ o') :
    (expansion_for_shortage i o).cost ≤ (expansion_for_shortage i' o').cost := by
  by_cases hz : i = 0 ∧ o = 0
  · obtain ⟨rfl, rfl⟩ := hz
    rw [exp_zero]
    exact Nat.zero_le _
  · have hz' : ¬(i' = 0 ∧ o' = 0) := by
      intro ⟨h1, h2⟩
      exact hz ⟨by omega, by omega⟩
    by_cases hs : singleOK i o
    · obtain ⟨m, -, -, hr, h447, -⟩ := exp_single_spec hz hs
      rw [hr]
      simp only [h447]
      exact exp_cost_lb447 hz'
    · have hns' : ¬ singleOK i' o' := fun h => hs (singleOK_mono hi ho h)
      by_cases hp : pairOK i o
      · obtain ⟨m1, -, m2, -, -, hr, h894, -⟩ := exp_pair_spec hs hp
        rw [hr]
        simp only [h894]
        exact exp_cost_lb894 hns'
      · have hnp' : ¬ pairOK i' o' := fun h => hp (pairOK_mono hi ho h)
        rw [exp_fallback hp, exp_fallback hnp']
        exact fallback_mono hi ho

/-!
License Resolver (`calculate_license_requirements`, lines 385-494):
zero controllers is reported as "nothing to license"; redundancy always
forces the Global license with the Gateway ($500) and Redundancy ($750)
add-ons; otherwise the tier is Special (≤ 32 controllers) or Corporate. -/

/-- The `license_result` dict stored at lines 485-492 (`none` models the
early "No controllers configured" return at lines 407-411). -/
structure LicenseResult where
  total_controllers : ℕ
  primary_license : String
  use_redundancy : Bool
  additional_licenses : List (String × ℕ)
  total_license_cost : ℕ
deriving Repr, DecidableEq

/-- The license decision logic of `calculate_license_requirements`
(lines 406-492), as a function of the aggregate controller count and the
redundancy flag. -/
def calculate_license_requirements (total_controllers : ℕ)
    (use_redundancy : Bool) : Option LicenseResult :=
  if total_controllers = 0 then none
  else if use_redundancy then
    some { total_controllers := total_controllers
           primary_license := "global"
           use_redundancy := true
           additional_licenses := [("Gateway License", 500), ("Redundancy License", 750)]
           total_license_cost := 500 + 750 }
  else if total_controllers ≤ 32 then
    some { total_controllers := total_controllers
           primary_license := "special"
           use_redundancy := false
           additional_licenses := []
           total_license_cost := 0 }
  else
    some { total_controllers := total_controllers
           primary_license := "corporate"
           use_redundancy := false
           additional_licenses := []
           total_license_cost := 0 }

/-!
Per-line calculation and Fleet Aggregator
(`calculate_single_dc_line`, lines 496-562, and
`calculate_all_dc_lines`, lines 564-658).
-/

/-- The result dict returned by `calculate_single_dc_line` (lines 556-562). -/
structure LineResult where
  dc_number : ℕ
  requirements : Totals
  controllers : CtrlAlloc
  expansion : ExpSol
  total_cost : ℕ
deriving Repr, DecidableEq

/-- `calculate_single_dc_line` (lines 496-562): derive the line's demand,
select controllers from readers only, select expansion modules against the
controllers' incidental I/O capacity, and total the two costs.  Returns
`none` when the Controller Selector found no combination (lines 517-520). -/
def calculate_single_dc_line (dc_line : DCDevice) : Option LineResult :=
  match select_controllers_for_dc dc_line.calculate_totals with
  | none => none
  | some controller_info =>
      let expansion := calculate_expansion_for_dc
        dc_line.calculate_totals.inputs dc_line.calculate_totals.outputs
        controller_info.inputs_provided controller_info.outputs_provided
      some { dc_number := dc_line.dc_number
             requirements := dc_line.calculate_totals
             controllers := controller_info
             expansion := expansion
             total_cost := controller_info.cost + expansion.cost }

/-- The summary totals accumulated by `calculate_all_dc_lines`
(lines 592-628). -/
structure FleetResult where
  results : List LineResult
  grand_total_cost : ℕ
  total_kt400 : ℕ
  total_kt2 : ℕ
  total_kt1 : ℕ
  total_expansion_cost : ℕ
deriving Repr, DecidableEq

/-- `calculate_all_dc_lines` (lines 564-658): each line is calculated
individually; lines whose calculation returns no result are skipped
(lines 573-576); the totals are elementwise sums over the collected
per-line results (lines 598-628). -/
def calculate_all_dc_lines (dc_lines : List DCDevice) : FleetResult :=
  let all_results := dc_lines.filterMap calculate_single_dc_line
  { results := all_results
    grand_total_cost := (all_results.map LineResult.total_cost).sum
    total_kt400 := (all_results.map fun r => r.controllers.kt400).sum
    total_kt2 := (all_results.map fun r => r.controllers.kt2).sum
    total_kt1 := (all_results.map fun r => r.controllers.kt1).sum
    total_expansion_cost := (all_results.map fun r => r.expansion.cost).sum }

/-- Per-line calculation always succeeds, and its total cost decomposes
into the catalog prices of the chosen controllers plus the expansion cost. -/
theorem single_line_spec (dc : DCDevice) :
    ∃ res, calculate_single_dc_line dc = some res ∧
      res.total_cost = res.controllers.kt400 * 1400 + res.controllers.kt2 * 750 +
        res.controllers.kt1 * 450 + res.expansion.cost := by
  obtain ⟨alloc, hsel, -, -, hcost, -, -, -, -⟩ := select_spec dc.calculate_totals
  refine ⟨{ dc_number := dc.dc_number
            requirements := dc.calculate_totals
            controllers := alloc
            expansion := calculate_expansion_for_dc dc.calculate_totals.inputs
              dc.calculate_totals.outputs alloc.inputs_provided alloc.outputs_provided
            total_cost := alloc.cost + (calculate_expansion_for_dc
              dc.calculate_totals.inputs dc.calculate_totals.outputs
              alloc.inputs_provided alloc.outputs_provided).cost }, ?_, ?_⟩
  · unfold calculate_single_dc_line
    rw [hsel]
  · simp only
    omega

theorem fleet_formula (ls : List DCDevice) :
    (calculate_all_dc_lines ls).grand_total_cost =
      (calculate_all_dc_lines ls).total_kt400 * 1400 +
      (calculate_all_dc_lines ls).total_kt2 * 750 +
      (calculate_all_dc_lines ls).total_kt1 * 450 +
      (calculate_all_dc_lines ls).total_expansion_cost := by
  induction ls with
  | nil => rfl
  | cons dc rest ih =>
      obtain ⟨res, hres, hcost⟩ := single_line_spec dc
      simp only [calculate_all_dc_lines, List.filterMap_cons, hres,
        List.map_cons, List.sum_cons] at ih ⊢
      omega

theorem fleet_append (l1 l2 : List DCDevice) :
    (calculate_all_dc_lines (l1 ++ l2)).results =
      (calculate_all_dc_lines l1).results ++ (calculate_all_dc_lines l2).results ∧
    (calculate_all_dc_lines (l1 ++ l2)).grand_total_cost =
      (calculate_all_dc_lines l1).grand_total_cost +
      (calculate_all_dc_lines l2).grand_total_cost ∧
    (calculate_all_dc_lines (l1 ++ l2)).total_kt400 =
      (calculate_all_dc_lines l1).total_kt400 + (calculate_all_dc_lines l2).total_kt400 ∧
    (calculate_all_dc_lines (l1 ++ l2)).total_kt2 =
      (calculate_all_dc_lines l1).total_kt2 + (calculate_all_dc_lines l2).total_kt2 ∧
    (calculate_all_dc_lines (l1 ++ l2)).total_kt1 =
      (calculate_all_dc_lines l1).total_kt1 + (calculate_all_dc_lines l2).total_kt1 ∧
    (calculate_all_dc_lines (l1 ++ l2)).total_expansion_cost =
      (calculate_all_dc_lines l1).total_expansion_cost +
      (calculate_all_dc_lines l2).total_expansion_cost := by
  simp [calculate_all_dc_lines, List.filterMap_append]

theorem filterMap_replicate_some {α β : Type} {f : α → Option β} {x : α} {y : β}
    (h : f x = some y) :
    ∀ n, (List.replicate n x).filterMap f = List.replicate n y := by
  intro n
  induction n with
  | zero => rfl
  | succ k ih => simp [List.replicate_succ, List.filterMap_cons, h, ih]

theorem fleet_replicate (dc : DCDevice) (n : ℕ) :
    (calculate_all_dc_lines (List.replicate n dc)).grand_total_cost =
      n * (calculate_all_dc_lines [dc]).grand_total_cost := by
  obtain ⟨res, hres, -⟩ := single_line_spec dc
  simp [calculate_all_dc_lines, filterMap_replicate_some hres,
    List.filterMap_cons, hres, List.map_replicate, List.sum_replicate,
    smul_eq_mul]

/-- The Controller Selector reads only the `readers` field of the line's
requirement dict. -/
theorem select_readers_eq {req req' : Totals} (h : req.readers = req'.readers) :
    select_controllers_for_dc req = select_controllers_for_dc req' := by
  unfold select_controllers_for_dc
  rw [h]

/-- If a tally change keeps reader demand fixed and does not decrease the
input/output demands, the line's total cost does not decrease. -/
theorem line_cost_mono_demand (t t' : DCDevice)
    (hr : t'.calculate_totals.readers = t.calculate_totals.readers)
    (hi : t.calculate_totals.inputs ≤ t'.calculate_totals.inputs)
    (ho : t.calculate_totals.outputs ≤ t'.calculate_totals.outputs) :
    ∃ r r', calculate_single_dc_line t = some r ∧
      calculate_single_dc_line t' = some r' ∧ r.total_cost ≤ r'.total_cost := by
  obtain ⟨alloc, hsel, -, -, -, -, -, -, -⟩ := select_spec t.calculate_totals
  have hsel' : select_controllers_for_dc t'.calculate_totals = some alloc := by
    rw [select_readers_eq hr, hsel]
  refine ⟨{ dc_number := t.dc_number
            requirements := t.calculate_totals
            controllers := alloc
            expansion := calculate_expansion_for_dc t.calculate_totals.inputs
              t.calculate_totals.outputs alloc.inputs_provided alloc.outputs_provided
            total_cost := alloc.cost + (calculate_expansion_for_dc
              t.calculate_totals.inputs t.calculate_totals.outputs
              alloc.inputs_provided alloc.outputs_provided).cost },
          { dc_number := t'.dc_number
            requirements := t'.calculate_totals
            controllers := alloc
            expansion := calculate_expansion_for_dc t'.calculate_totals.inputs
              t'.calculate_totals.outputs alloc.inputs_provided alloc.outputs_provided
            total_cost := alloc.cost + (calculate_expansion_for_dc
              t'.calculate_totals.inputs t'.calculate_totals.outputs
              alloc.inputs_provided alloc.outputs_provided).cost }, ?_, ?_, ?_⟩
  · unfold calculate_single_dc_line
    rw [hsel]
  · unfold calculate_single_dc_line
    rw [hsel']
  · simp only
    unfold calculate_expansion_for_dc
    exact Nat.add_le_add_left
      (exp_cost_mono (Nat.sub_le_sub_right hi _) (Nat.sub_le_sub_right ho _)) _

/-!  Claims. -/

/-- C1: for every reader demand, the Controller Selector returns an
allocation whose provided readers meet the demand, whose cost is the stated
catalog combination price of the returned counts, and which no other triple
of non-negative counts of kt-400 ($1400, 4 readers), kt-2 ($750, 2 readers)
and kt-1 ($450, 1 reader) meeting the demand under-cuts in cost. -/
theorem claim_C1_controller_optimal (req : Totals) :
    ∃ alloc, select_controllers_for_dc req = some alloc ∧
      req.readers ≤ alloc.readers_provided ∧
      alloc.cost = alloc.kt400 * 1400 + alloc.kt2 * 750 + alloc.kt1 * 450 ∧
      ∀ kt400 kt2 kt1 : ℕ,
        req.readers ≤ kt400 * 4 + kt2 * 2 + kt1 →
        alloc.cost ≤ kt400 * 1400 + kt2 * 750 + kt1 * 450 := by
  obtain ⟨alloc, h1, -, h3, h4, -, -, -, h8⟩ := select_spec req
  exact ⟨alloc, h1, h3, h4, h8⟩

/-- Witness for C1 at reader demand 3: the selector succeeds, meets the
demand, and its cost is bounded by that of one kt-400 unit. -/
theorem claim_C1_witness :
    ∃ alloc, select_controllers_for_dc ⟨3, 0, 0⟩ = some alloc ∧
      3 ≤ alloc.readers_provided ∧ alloc.cost ≤ 1 * 1400 + 0 * 750 + 0 * 450 := by
  obtain ⟨alloc, h1, h2, h3, h4⟩ := claim_C1_controller_optimal ⟨3, 0, 0⟩
  exact ⟨alloc, h1, h2, h4 1 0 0 (by norm_num)⟩

/-- C2 counterexample: bumping the smart-card (or fingerprint) tally from 0
to 1 on a line with 33 door sensors DECREASES the total cost from $1410
(no controller, fallback 3×in16) to $1344 (one kt-1 at $450 plus a $894
two-module expansion), so increasing a single tally can decrease the
line's total cost. -/
theorem claim_C2_counterexample :
    (calculate_single_dc_line { door_sensor := 33 }).map LineResult.total_cost =
      some 1410 ∧
    (calculate_single_dc_line { door_sensor := 33, smart_card := 1 }).map
      LineResult.total_cost = some 1344 ∧
    (calculate_single_dc_line { door_sensor := 33, fingerprint := 1 }).map
      LineResult.total_cost = some 1344 ∧
    1344 < 1410 := by
  refine ⟨?_, ?_, ?_, by norm_num⟩ <;> decide

/-- C2 amended: increasing any single tally field OTHER THAN the two reader
fields (smart_card, fingerprint) by one never decreases the line's total
cost.  (For the reader fields the original claim fails, see the
counterexample.) -/
theorem claim_C2_amended_monotone (t : DCDevice) :
    (∃ r r', calculate_single_dc_line t = some r ∧
      calculate_single_dc_line { t with door_sensor := t.door_sensor + 1 } = some r' ∧
      r.total_cost ≤ r'.total_cost) ∧
    (∃ r r', calculate_single_dc_line t = some r ∧
      calculate_single_dc_line { t with magnetic_lock := t.magnetic_lock + 1 } = some r' ∧
      r.total_cost ≤ r'.total_cost) ∧
    (∃ r r', calculate_single_dc_line t = some r ∧
      calculate_single_dc_line { t with electric_lock := t.electric_lock + 1 } = some r' ∧
      r.total_cost ≤ r'.total_cost) ∧
    (∃ r r', calculate_single_dc_line t = some r ∧
      calculate_single_dc_line { t with rex_button := t.rex_button + 1 } = some r' ∧
      r.total_cost ≤ r'.total_cost) ∧
    (∃ r r', calculate_single_dc_line t = some r ∧
      calculate_single_dc_line { t with push_button := t.push_button + 1 } = some r' ∧
      r.total_cost ≤ r'.total_cost) ∧
    (∃ r r', calculate_single_dc_line t = some r ∧
      calculate_single_dc_line { t with break_glass := t.break_glass + 1 } = some r' ∧
      r.total_cost ≤ r'.total_cost) ∧
    (∃ r r', calculate_single_dc_line t = some r ∧
      calculate_single_dc_line { t with buzzer := t.buzzer + 1 } = some r' ∧
      r.total_cost ≤ r'.total_cost) ∧
    (∃ r r', calculate_single_dc_line t = some r ∧
      calculate_single_dc_line { t with double_door_lock := t.double_door_lock + 1 } = some r' ∧
      r.total_cost ≤ r'.total_cost) ∧
    (∃ r r', calculate_single_dc_line t = some r ∧
      calculate_single_dc_line { t with ddl_sensors := t.ddl_sensors + 1 } = some r' ∧
      r.total_cost ≤ r'.total_cost) := by
  refine ⟨?_, ?_, ?_, ?_, ?_, ?_, ?_, ?_, ?_⟩ <;>
    exact line_cost_mono_demand _ _
      (by simp [DCDevice.calculate_totals] <;> omega)
      (by simp [DCDevice.calculate_totals] <;> omega)
      (by simp [DCDevice.calculate_totals] <;> omega)

/-- C3: with at least one controller, redundancy always yields the
"global" tier with exactly the gateway ($500) and redundancy ($750)
add-ons at total cost $1250; without redundancy the tier is "special"
(count ≤ 32) or "corporate" (count > 32) with no add-ons and cost 0;
zero controllers yields the "no license applicable" outcome. -/
theorem claim_C3_license_tiers (n : ℕ) (b : Bool) :
    (calculate_license_requirements 0 b = none) ∧
    (1 ≤ n → calculate_license_requirements n true =
      some ⟨n, "global", true,
        [("Gateway License", 500), ("Redundancy License", 750)], 1250⟩) ∧
    (1 ≤ n → n ≤ 32 → calculate_license_requirements n false =
      some ⟨n, "special", false, [], 0⟩) ∧
    (33 ≤ n → calculate_license_requirements n false =
      some ⟨n, "corporate", false, [], 0⟩) := by
  refine ⟨by simp [calculate_license_requirements], fun h1 => ?_,
    fun h1 h2 => ?_, fun h1 => ?_⟩ <;>
    simp [calculate_license_requirements] <;> omega

/-- Witness for C3 at the threshold: 32 non-redundant controllers get the
special tier, 33 get corporate, and 32 redundant controllers get global
with both add-ons at $1250. -/
theorem claim_C3_witness :
    calculate_license_requirements 32 false = some ⟨32, "special", false, [], 0⟩ ∧
    calculate_license_requirements 33 false = some ⟨33, "corporate", false, [], 0⟩ ∧
    calculate_license_requirements 32 true =
      some ⟨32, "global", true,
        [("Gateway License", 500), ("Redundancy License", 750)], 1250⟩ :=
  ⟨((claim_C3_license_tiers 32 false).2.2.1 (by norm_num) (by norm_num)),
   ((claim_C3_license_tiers 33 false).2.2.2 (by norm_num)),
   ((claim_C3_license_tiers 32 true).2.1 (by norm_num))⟩

/-- C4: the derived demand of a line is readers = smart_card + fingerprint,
inputs = door_sensor + rex + push + break_glass + buzzer + magnetic_lock +
ddl_sensors + double_door_lock, outputs = magnetic_lock + electric_lock +
ddl_sensors + double_door_lock; one extra double-door-lock unit adds
exactly one input and exactly one output. -/
theorem claim_C4_demand_derivation (d : DCDevice) :
    d.calculate_totals.readers = d.smart_card + d.fingerprint ∧
    d.calculate_totals.inputs = d.door_sensor + d.rex_button + d.push_button +
      d.break_glass + d.buzzer + d.magnetic_lock + d.ddl_sensors +
      d.double_door_lock ∧
    d.calculate_totals.outputs = d.magnetic_lock + d.electric_lock +
      d.ddl_sensors + d.double_door_lock ∧
    ({ d with double_door_lock := d.double_door_lock + 1 } :
        DCDevice).calculate_totals.inputs = d.calculate_totals.inputs + 1 ∧
    ({ d with double_door_lock := d.double_door_lock + 1 } :
        DCDevice).calculate_totals.outputs = d.calculate_totals.outputs + 1 := by
  refine ⟨rfl, rfl, rfl, ?_, ?_⟩ <;> (simp [DCDevice.calculate_totals]; omega)

/-- C5: both shortages zero yields no modules at cost 0; otherwise a
covering single module (when one exists) is returned alone at the minimum
cost over all covering singles — never a pair; otherwise a covering pair
(when one exists) is returned at the minimum cost over all covering
pairs. -/
theorem claim_C5_expansion_tiers (i o : ℕ) :
    (i = 0 ∧ o = 0 → expansion_for_shortage i o = ⟨[], 0⟩) ∧
    (¬(i = 0 ∧ o = 0) → singleOK i o →
      ∃ m ∈ expansion_modules, (i ≤ m.inputs ∧ o ≤ m.outputs) ∧
        expansion_for_shortage i o = ⟨[m.name], m.cost⟩ ∧
        ∀ m' ∈ expansion_modules, i ≤ m'.inputs ∧ o ≤ m'.outputs →
          m.cost ≤ m'.cost) ∧
    (¬ singleOK i o → pairOK i o →
      ∃ m1 ∈ expansion_modules, ∃ m2 ∈ expansion_modules,
        (i ≤ m1.inputs + m2.inputs ∧ o ≤ m1.outputs + m2.outputs) ∧
        expansion_for_shortage i o = ⟨[m1.name, m2.name], m1.cost + m2.cost⟩ ∧
        ∀ n1 ∈ expansion_modules, ∀ n2 ∈ expansion_modules,
          i ≤ n1.inputs + n2.inputs ∧ o ≤ n1.outputs + n2.outputs →
          m1.cost + m2.cost ≤ n1.cost + n2.cost) := by
  refine ⟨fun hz => ?_, fun hz hs => ?_, fun hns hp => ?_⟩
  · obtain ⟨rfl, rfl⟩ := hz
    exact exp_zero
  · obtain ⟨m, hm, hc, hr, -, hmin⟩ := exp_single_spec hz hs
    exact ⟨m, hm, hc, hr, hmin⟩
  · obtain ⟨m1, hm1, m2, hm2, hc, hr, -, hmin⟩ := exp_pair_spec hns hp
    exact ⟨m1, hm1, m2, hm2, hc, hr, hmin⟩

/-- Witness for C5: zero shortages yield no modules, and shortage (5, 3)
is covered by a single catalog module of minimal cost. -/
theorem claim_C5_witness :
    expansion_for_shortage 0 0 = ⟨[], 0⟩ ∧
    ∃ m ∈ expansion_modules, ((5 : ℕ) ≤ m.inputs ∧ (3 : ℕ) ≤ m.outputs) ∧
      expansion_for_shortage 5 3 = ⟨[m.name], m.cost⟩ ∧
      ∀ m' ∈ expansion_modules, (5 : ℕ) ≤ m'.inputs ∧ (3 : ℕ) ≤ m'.outputs →
        m.cost ≤ m'.cost :=
  ⟨(claim_C5_expansion_tiers 0 0).1 ⟨rfl, rfl⟩,
   (claim_C5_expansion_tiers 5 3).2.1 (by decide) (by decide)⟩

/-- C6: when no single module and no ordered pair of modules covers both
shortages, the Expansion Selector returns the specialized fallback, whose
cost is 470 per in16 unit (⌈input_shortage/16⌉ of them, only when the
input shortage is positive) plus 470 per r8 unit (⌈output_shortage/8⌉,
only when the output shortage is positive) — computed independently, and
always defined, so the selector never fails. -/
theorem claim_C6_fallback (i o : ℕ)
    (hsingle : ∀ m ∈ expansion_modules, ¬(i ≤ m.inputs ∧ o ≤ m.outputs))
    (hpair : ∀ m1 ∈ expansion_modules, ∀ m2 ∈ expansion_modules,
      ¬(i ≤ m1.inputs + m2.inputs ∧ o ≤ m1.outputs + m2.outputs)) :
    expansion_for_shortage i o = fallbackSol i o ∧
    (expansion_for_shortage i o).cost =
      (if 0 < i then 470 * ((i + 15) / 16) else 0) +
      (if 0 < o then 470 * ((o + 7) / 8) else 0) := by
  have hnp : ¬ pairOK i o := by
    rintro ⟨m1, hm1, m2, hm2, hc1, hc2⟩
    exact hpair m1 hm1 m2 hm2 ⟨hc1, hc2⟩
  exact ⟨exp_fallback hnp, by rw [exp_fallback hnp]; rfl⟩

/-- Witness for C6 at shortage (40, 40), which no two modules can cover:
the fallback buys 3 in16 and 5 r8 units for $3760. -/
theorem claim_C6_witness : (expansion_for_shortage 40 40).cost = 3760 := by
  have h := (claim_C6_fallback 40 40 (by decide) (by decide)).2
  rw [h]
  decide

/-- C7: the Controller Selector's search bounds always contain a feasible
combination, so it returns an allocation for every demand (the infeasible
branch is unreachable); demand 0 yields the zero-unit allocation at cost
0, not an infeasible signal. -/
theorem claim_C7_never_infeasible (req : Totals) :
    (∃ alloc, select_controllers_for_dc req = some alloc) ∧
    (req.readers = 0 →
      select_controllers_for_dc req = some ⟨0, 0, 0, 0, 0, 0, 0, 0⟩) := by
  obtain ⟨alloc, h1, h2, h3, h4, h5, h6, h7, h8⟩ := select_spec req
  refine ⟨⟨alloc, h1⟩, fun hr0 => ?_⟩
  have hc0 := h8 0 0 0 (by omega)
  rw [h1]
  obtain ⟨k4, k2, k1, rp, co, ex, ip, op⟩ := alloc
  simp only at h2 h3 h4 h5 h6 h7 hc0
  simp only [Option.some.injEq, CtrlAlloc.mk.injEq]
  omega

/-- Witness for C7: a line with 0 readers but nonzero I/O demand still gets
the zero-unit allocation rather than an infeasible signal. -/
theorem claim_C7_witness :
    select_controllers_for_dc ⟨0, 5, 7⟩ = some ⟨0, 0, 0, 0, 0, 0, 0, 0⟩ :=
  (claim_C7_never_infeasible ⟨0, 5, 7⟩).2 rfl

/-- C8: the Fleet Aggregator is per-line independent and additive — the
result list and every aggregate of a concatenated fleet are the
concatenation/sums of the parts, the grand total decomposes into catalog
controller prices plus expansion cost, and a fleet of n identical lines
costs exactly n times the single line. -/
theorem claim_C8_fleet_additive (l1 l2 : List DCDevice) (dc : DCDevice) (n : ℕ) :
    ((calculate_all_dc_lines (l1 ++ l2)).results =
      (calculate_all_dc_lines l1).results ++ (calculate_all_dc_lines l2).results ∧
     (calculate_all_dc_lines (l1 ++ l2)).grand_total_cost =
      (calculate_all_dc_lines l1).grand_total_cost +
      (calculate_all_dc_lines l2).grand_total_cost ∧
     (calculate_all_dc_lines (l1 ++ l2)).total_kt400 =
      (calculate_all_dc_lines l1).total_kt400 +
      (calculate_all_dc_lines l2).total_kt400 ∧
     (calculate_all_dc_lines (l1 ++ l2)).total_kt2 =
      (calculate_all_dc_lines l1).total_kt2 +
      (calculate_all_dc_lines l2).total_kt2 ∧
     (calculate_all_dc_lines (l1 ++ l2)).total_kt1 =
      (calculate_all_dc_lines l1).total_kt1 +
      (calculate_all_dc_lines l2).total_kt1 ∧
     (calculate_all_dc_lines (l1 ++ l2)).total_expansion_cost =
      (calculate_all_dc_lines l1).total_expansion_cost +
      (calculate_all_dc_lines l2).total_expansion_cost) ∧
    (calculate_all_dc_lines l1).grand_total_cost =
      (calculate_all_dc_lines l1).total_kt400 * 1400 +
      (calculate_all_dc_lines l1).total_kt2 * 750 +
      (calculate_all_dc_lines l1).total_kt1 * 450 +
      (calculate_all_dc_lines l1).total_expansion_cost ∧
    (calculate_all_dc_lines (List.replicate n dc)).grand_total_cost =
      n * (calculate_all_dc_lines [dc]).grand_total_cost :=
  ⟨fleet_append l1 l2, fleet_formula l1, fleet_replicate dc n⟩

/-- C10: the Controller Selector's result depends only on the line's
reader demand (smart_card + fingerprint): two tallies with equal reader
sums get identical allocations regardless of every other device count. -/
theorem claim_C10_readers_only (t1 t2 : DCDevice)
    (h : t1.smart_card + t1.fingerprint = t2.smart_card + t2.fingerprint) :
    select_controllers_for_dc t1.calculate_totals =
      select_controllers_for_dc t2.calculate_totals :=
  select_readers_eq (by simpa [DCDevice.calculate_totals] using h)

/-- Witness for C10: two readers on a bare line and two readers on a line
loaded with 50 door sensors and 9 magnetic locks yield the same
allocation. -/
theorem claim_C10_witness :
    select_controllers_for_dc ({ smart_card := 2 } : DCDevice).calculate_totals =
      select_controllers_for_dc
        ({ fingerprint := 2, door_sensor := 50,
           magnetic_lock := 9 } : DCDevice).calculate_totals :=
  claim_C10_readers_only _ _ (by norm_num)

end KantechCalc
